import Mathlib

/-!
Shallow embedding of the openclaw-plugin-wecom streaming core
(stream-manager, heartbeat-manager, message-queue, crypto) together with
proofs about the behaviour of its operations.

Strings of the JavaScript source are modelled as lists of Unicode code
points (`List Nat`); byte buffers (`Buffer`) as lists of bytes
(`List Nat`, each < 256).  `Buffer.byteLength(s, 'utf8')` and
`Buffer.from(s, 'utf8')` are modelled by a UTF-8 encoder, and
`buffer.toString('utf8')` by a WHATWG-style decoder that replaces each
maximal invalid subsequence with U+FFFD, which is Node's documented
behaviour for invalid input.
-/

namespace Wecom

/-- UTF-8 encoding of a single code point (scalar values produce the
standard 1–4 byte sequence). -/
def utf8EncodeChar (c : Nat) : List Nat :=
  if c < 0x80 then [c]
  else if c < 0x800 then [0xC0 + c / 64, 0x80 + c % 64]
  else if c < 0x10000 then
    [0xE0 + c / 4096, 0x80 + (c / 64) % 64, 0x80 + c % 64]
  else
    [0xF0 + c / 262144, 0x80 + (c / 4096) % 64, 0x80 + (c / 64) % 64,
      0x80 + c % 64]

/-- UTF-8 encoding of a list of code points (`Buffer.from(s, 'utf8')`). -/
def utf8Encode : List Nat → List Nat
  | [] => []
  | c :: cs => utf8EncodeChar c ++ utf8Encode cs

/-- `Buffer.byteLength(s, 'utf8')`. -/
def utf8ByteLength (s : List Nat) : Nat :=
  (utf8Encode s).length

/-- `true` iff `c` is a Unicode scalar value (what a well-formed JS string
yields when encoded to UTF-8). -/
def isScalar (c : Nat) : Bool :=
  c < 0x110000 && (c < 0xD800 || 0xE000 ≤ c)

/-- One step of the WHATWG UTF-8 decoder: given the first byte and the
remaining bytes, return the decoded code point (U+FFFD on a maximal
invalid subsequence) and the bytes not yet consumed. -/
def utf8DecodeStep (b : Nat) (rest : List Nat) : Nat × List Nat :=
  if b < 0x80 then (b, rest)
  else if b < 0xC2 then (0xFFFD, rest)
  else if b < 0xE0 then
    match rest with
    | [] => (0xFFFD, [])
    | b1 :: r1 =>
      if 0x80 ≤ b1 ∧ b1 < 0xC0 then ((b - 0xC0) * 64 + (b1 - 0x80), r1)
      else (0xFFFD, b1 :: r1)
  else if b < 0xF0 then
    match rest with
    | [] => (0xFFFD, [])
    | b1 :: r1 =>
      if (if b = 0xE0 then 0xA0 else 0x80) ≤ b1 ∧
          b1 < (if b = 0xED then 0xA0 else 0xC0) then
        match r1 with
        | [] => (0xFFFD, [])
        | b2 :: r2 =>
          if 0x80 ≤ b2 ∧ b2 < 0xC0 then
            ((b - 0xE0) * 4096 + (b1 - 0x80) * 64 + (b2 - 0x80), r2)
          else (0xFFFD, b2 :: r2)
      else (0xFFFD, b1 :: r1)
  else if b < 0xF5 then
    match rest with
    | [] => (0xFFFD, [])
    | b1 :: r1 =>
      if (if b = 0xF0 then 0x90 else 0x80) ≤ b1 ∧
          b1 < (if b = 0xF4 then 0x90 else 0xC0) then
        match r1 with
        | [] => (0xFFFD, [])
        | b2 :: r2 =>
          if 0x80 ≤ b2 ∧ b2 < 0xC0 then
            match r2 with
            | [] => (0xFFFD, [])
            | b3 :: r3 =>
              if 0x80 ≤ b3 ∧ b3 < 0xC0 then
                ((b - 0xF0) * 262144 + (b1 - 0x80) * 4096 +
                  (b2 - 0x80) * 64 + (b3 - 0x80), r3)
              else (0xFFFD, b3 :: r3)
          else (0xFFFD, b2 :: r2)
      else (0xFFFD, b1 :: r1)
  else (0xFFFD, rest)

/-- Fuel-indexed driver of the decoder (fuel bounds the number of decoded
code points; a byte list of length `n` never produces more than `n`). -/
def nodeUtf8DecodeGo : Nat → List Nat → List Nat
  | 0, _ => []
  | _, [] => []
  | fuel + 1, b :: rest =>
    (utf8DecodeStep b rest).1 ::
      nodeUtf8DecodeGo fuel (utf8DecodeStep b rest).2

/-- `buffer.toString('utf8')` in Node: WHATWG decoding with U+FFFD
replacement of invalid subsequences. -/
def nodeUtf8Decode (l : List Nat) : List Nat :=
  nodeUtf8DecodeGo l.length l

/-! ## Stream Registry (`stream-manager.js`, class `StreamManager`) -/

/-- One entry of a `msg_item` array as built by `processPendingImages`
(`{msgtype:"image", image:{base64, md5}}`). -/
structure MsgItem where
  base64 : String
  md5 : String
deriving DecidableEq, Repr

/-- One entry of `stream.pendingImages` (`{path, queuedAt}`). -/
structure PendingImage where
  path : String
  queuedAt : Nat
deriving DecidableEq, Repr

/-- One record of the `streams` map; `content` is a JS string modelled as
a list of code points. -/
structure StreamRec where
  content : List Nat
  finished : Bool
  updatedAt : Nat
  feedbackId : Option String
  msgItem : List MsgItem
  pendingImages : List PendingImage
deriving DecidableEq, Repr

/-- The `streams` map, `streamId -> StreamRec`. -/
def Registry : Type := List (String × StreamRec)

/-- `this.streams.get(streamId)`. -/
def regGet : Registry → String → Option StreamRec
  | [], _ => none
  | (k, v) :: rest, id => if k = id then some v else regGet rest id

/-- `this.streams.set(streamId, s)`. -/
def regSet : Registry → String → StreamRec → Registry
  | [], id, s => [(id, s)]
  | (k, v) :: rest, id, s =>
    if k = id then (k, s) :: rest else (k, v) :: regSet rest id s

/-- `createStream`: insert a fresh record with empty content. -/
def createStream (reg : Registry) (streamId : String)
    (feedbackId : Option String) (now : Nat) : Registry :=
  regSet reg streamId
    { content := [], finished := false, updatedAt := now,
      feedbackId := feedbackId, msgItem := [], pendingImages := [] }

/-- `updateStream(streamId, content, finished, options)`: whole-content
replacement with byte-slice truncation at 20480 bytes
(`Buffer.from(content,'utf8').slice(0,20480).toString('utf8')`); assigns
`finished`; stores at most 10 `msgItem` entries when finishing.
`msgItemOpt = []` models an absent `options.msgItem`. -/
def updateStream (reg : Registry) (streamId : String) (content : List Nat)
    (finished : Bool) (msgItemOpt : List MsgItem) (now : Nat) :
    Bool × Registry :=
  match regGet reg streamId with
  | none => (false, reg)
  | some stream =>
    let contentBytes := utf8ByteLength content
    let content' :=
      if contentBytes > 20480 then
        nodeUtf8Decode ((utf8Encode content).take 20480)
      else content
    let stream' := { stream with content := content', finished := finished,
                                 updatedAt := now }
    let stream'' :=
      if finished && !msgItemOpt.isEmpty then
        { stream' with msgItem := msgItemOpt.take 10 }
      else stream'
    (true, regSet reg streamId stream'')

/-- `appendStream(streamId, chunk)`: concatenate then apply the same
byte-slice truncation. -/
def appendStream (reg : Registry) (streamId : String) (chunk : List Nat)
    (now : Nat) : Bool × Registry :=
  match regGet reg streamId with
  | none => (false, reg)
  | some stream =>
    let newContent := stream.content ++ chunk
    let contentBytes := utf8ByteLength newContent
    let content' :=
      if contentBytes > 20480 then
        nodeUtf8Decode ((utf8Encode newContent).take 20480)
      else newContent
    (true, regSet reg streamId
      { stream with content := content', updatedAt := now })

/-- `queueImage(streamId, imagePath)`. -/
def queueImage (reg : Registry) (streamId : String) (imagePath : String)
    (now : Nat) : Bool × Registry :=
  match regGet reg streamId with
  | none => (false, reg)
  | some stream =>
    (true, regSet reg streamId
      { stream with
        pendingImages := stream.pendingImages ++ [⟨imagePath, now⟩] })

/-- Loop body of `processPendingImages`: `count` is the number of items
already in `msgItems`; the external collaborator
`prepareImageForMsgItem` is modelled by `prep` (`none` = the call threw).
Returns the produced items together with the number of `prep`
invocations actually performed. -/
def processImagesGo (prep : String → Option MsgItem) :
    List PendingImage → Nat → List MsgItem × Nat
  | [], _ => ([], 0)
  | img :: rest, count =>
    if count ≥ 10 then ([], 0)
    else
      match prep img.path with
      | some item =>
        let r := processImagesGo prep rest (count + 1)
        (item :: r.1, r.2 + 1)
      | none =>
        let r := processImagesGo prep rest count
        (r.1, r.2 + 1)

/-- `processPendingImages(streamId)` on the record of the stream
(the source re-reads the map; the record is passed directly here). -/
def processPendingImages (s : StreamRec) (prep : String → Option MsgItem) :
    List MsgItem × Nat :=
  if s.pendingImages.isEmpty then ([], 0)
  else processImagesGo prep s.pendingImages 0

/-- `finishStream(streamId)`: guard on `finished`, process pending images
into `msgItem`, set `finished := true`.  The third component counts the
`prepareImageForMsgItem` invocations performed by the call. -/
def finishStream (reg : Registry) (streamId : String)
    (prep : String → Option MsgItem) (now : Nat) :
    Bool × Registry × Nat :=
  match regGet reg streamId with
  | none => (false, reg, 0)
  | some stream =>
    if stream.finished then (false, reg, 0)
    else
      let pr := processPendingImages stream prep
      let stream' :=
        if stream.pendingImages.length > 0 then
          { stream with msgItem := pr.1 }
        else stream
      let attempts :=
        if stream.pendingImages.length > 0 then pr.2 else 0
      let stream'' := { stream' with finished := true, updatedAt := now }
      (true, regSet reg streamId stream'', attempts)

/-! ## Conversation queue (`message-queue.js`, class `MessageQueueManager`)

Job payloads are identified by their stream id, modelled as `Nat`. -/

/-- Result object of `enqueue` (`position = none` models an absent
`position` field, `queueFull := false` an absent `queueFull`). -/
structure EnqueueResult where
  queued : Bool
  position : Option Nat
  queueFull : Bool
deriving DecidableEq, Repr

/-- Per-key state `{processing, currentStreamId, queue}`. -/
structure QueueState where
  processing : Bool
  currentStreamId : Option Nat
  queue : List Nat
deriving DecidableEq, Repr

/-- The state a fresh key receives in `enqueue`. -/
def initQueueState : QueueState :=
  { processing := false, currentStreamId := none, queue := [] }

/-- `enqueue(streamKey, message, processor)` on the state of one key.
The third component is the job started immediately by this call, if any
(the source fires `_processMessage` for it). -/
def enqueueOp (s : QueueState) (m : Nat) :
    EnqueueResult × QueueState × Option Nat :=
  if !s.processing then
    ({ queued := false, position := none, queueFull := false },
      { s with processing := true, currentStreamId := some m }, some m)
  else if s.queue.length ≥ 5 then
    ({ queued := false, position := none, queueFull := true }, s, none)
  else
    ({ queued := true, position := some (s.queue.length + 1),
       queueFull := false },
      { s with queue := s.queue ++ [m] }, none)

/-- `_processNext(streamKey)`: shift the backlog; the second component is
the job it starts, if any. -/
def processNextOp (s : QueueState) : QueueState × Option Nat :=
  match s.queue with
  | next :: rest =>
    ({ s with queue := rest, currentStreamId := some next }, some next)
  | [] =>
    ({ s with processing := false, currentStreamId := none }, none)

/-- Events on one key: an `enqueue` call, or the completion of the active
job (which triggers `_processNext`). -/
inductive QEvent where
  | enq (m : Nat)
  | complete
deriving DecidableEq, Repr

/-- One key's state together with the history of jobs started (in start
order) and jobs accepted (started immediately or placed in the backlog,
in arrival order). -/
structure QTrace where
  state : QueueState
  started : List Nat
  accepted : List Nat
deriving DecidableEq, Repr

/-- Apply one event to a trace. -/
def qstep (t : QTrace) : QEvent → QTrace
  | .enq m =>
    let r := enqueueOp t.state m
    { state := r.2.1,
      started := t.started ++ (match r.2.2 with | some j => [j] | none => []),
      accepted := t.accepted ++ (if r.1.queueFull then [] else [m]) }
  | .complete =>
    let r := processNextOp t.state
    { state := r.1,
      started := t.started ++ (match r.2 with | some j => [j] | none => []),
      accepted := t.accepted }

/-- Run a sequence of events for one key from the fresh state. -/
def qrun (events : List QEvent) : QTrace :=
  events.foldl qstep { state := initQueueState, started := [], accepted := [] }

/-- Invariant of a key's trace: backlog bounded by 5, an idle key has an
empty backlog, and jobs start in exactly arrival (FIFO) order: the
started jobs followed by the backlog are the accepted jobs. -/
def QInv (t : QTrace) : Prop :=
  t.state.queue.length ≤ 5 ∧
    (t.state.processing = false → t.state.queue = []) ∧
    t.started ++ t.state.queue = t.accepted

/-! ## Heartbeat (`heartbeat-manager.js`, class `HeartbeatManager`) -/

/-- Code points of a string literal of the source. -/
def strCps (s : String) : List Nat :=
  s.toList.map Char.toNat

/-- `needle` is a prefix of `hay` (helper for JS `String.includes`). -/
def isPrefixB : List Nat → List Nat → Bool
  | [], _ => true
  | _ :: _, [] => false
  | a :: as, b :: bs => a == b && isPrefixB as bs

/-- JS `hay.includes(needle)`: some position of `hay` starts with
`needle`. -/
def containsB : List Nat → List Nat → Bool
  | [], needle => isPrefixB needle []
  | x :: t, needle => isPrefixB needle (x :: t) || containsB t needle

/-- `config.thinkingMessages`. -/
def thinkingMessages : List (List Nat) :=
  [strCps "正在思考", strCps "正在分析", strCps "正在处理",
    strCps "正在生成回复"]

/-- `_isHeartbeatContent(content)`: non-empty, contains the hourglass
marker and one of the thinking phrases. -/
def isHeartbeatContent (content : List Nat) : Bool :=
  if content.isEmpty then false
  else
    containsB content (strCps "⏳") &&
      (containsB content (strCps "正在思考") ||
        containsB content (strCps "正在分析") ||
        containsB content (strCps "正在处理") ||
        containsB content (strCps "正在生成回复"))

/-- The placeholder written by a tick:
`thinkingMessages[floor(elapsed/10000) % 4]` followed by `dots + 1`
dots and the hourglass (`` `${thinkingMsg}${dots} ⏳` ``). -/
def mkHeartbeatContent (elapsed dots : Nat) : List Nat :=
  (thinkingMessages.getD ((elapsed / 10000) % thinkingMessages.length) [])
    ++ List.replicate (dots + 1) 46 ++ strCps " ⏳"

/-- Per-stream heartbeat state (the fields of `_tick`'s `state` argument
that the tick reads or writes). -/
structure HBState where
  startTime : Nat
  dots : Nat
  hasContent : Bool
deriving DecidableEq, Repr

/-- What one `_tick` invocation did. -/
inductive TickAction where
  | timedOut
  | stoppedMissing
  | stoppedFinished
  | observedReal
  | skippedQuiet
  | wrote (c : List Nat)
deriving DecidableEq, Repr

/-- `_tick(streamId, state)` at wall-clock `now`, with the registry's
view of the stream passed as `stream?`.  Returns the action taken and
the surviving heartbeat state (`none` = the heartbeat stopped). -/
def tick (now : Nat) (st : HBState) (stream? : Option StreamRec) :
    TickAction × Option HBState :=
  let elapsed := now - st.startTime
  if elapsed ≥ 60000 then (.timedOut, none)
  else
    match stream? with
    | none => (.stoppedMissing, none)
    | some stream =>
      if stream.finished then (.stoppedFinished, none)
      else if !stream.content.isEmpty && !isHeartbeatContent stream.content then
        (.observedReal, some { st with hasContent := true })
      else if st.hasContent then (.skippedQuiet, some st)
      else
        let dots := (st.dots + 1) % 4
        (.wrote (mkHeartbeatContent elapsed dots), some { st with dots := dots })

/-- Run a heartbeat over a list of observations `(now, stream?)`, one per
timer firing; once the heartbeat stops there are no further ticks. -/
def runTicks : List (Nat × Option StreamRec) → Option HBState → List TickAction
  | [], _ => []
  | _, none => []
  | (now, s?) :: rest, some st =>
    (tick now st s?).1 :: runTicks rest (tick now st s?).2

/-! ## Crypto (`crypto.js`, class `WecomCrypto`)

AES-256-CBC and base64 are `node:crypto`/`Buffer` primitives, not code of
this repository; on the byte buffers this code produces they compose to
mutually inverse bijections, so they are abstracted as a function pair
with an inverse hypothesis in the round-trip theorem. -/

/-- `encodePkcs7(buff)` with `AES_BLOCK_SIZE = 32`. -/
def encodePkcs7 (buff : List Nat) : List Nat :=
  buff ++ List.replicate (32 - buff.length % 32) (32 - buff.length % 32)

/-- `decodePkcs7(buff)`.  On an empty buffer the JS reads
`buff[-1] = undefined`, every comparison with `undefined` is false, and
`subarray(0, NaN)` yields an empty buffer, so the empty buffer is
returned unchanged; a pad value exceeding the buffer length makes the
check read `undefined` at negative indices and throw. -/
def decodePkcs7 (buff : List Nat) : Except String (List Nat) :=
  match buff.getLast? with
  | none => .ok []
  | some pad =>
    if pad < 1 ∨ pad > 32 then
      .error "Invalid PKCS7 padding"
    else if buff.length < pad then
      .error "Invalid PKCS7 padding: inconsistent padding bytes"
    else if (buff.drop (buff.length - pad)).all (fun x => x == pad) then
      .ok (buff.take (buff.length - pad))
    else
      .error "Invalid PKCS7 padding: inconsistent padding bytes"

/-- `readUInt32BE` on four bytes. -/
def readUInt32BE4 (b0 b1 b2 b3 : Nat) : Nat :=
  b0 * 16777216 + b1 * 65536 + b2 * 256 + b3

/-- `writeUInt32BE(n)` for `n < 2^32`. -/
def writeUInt32BE (n : Nat) : List Nat :=
  [n / 16777216 % 256, n / 65536 % 256, n / 256 % 256, n % 256]

/-- The part of `decrypt` after the cipher: remove PKCS#7 padding, skip
the 16 random bytes, read the 4-byte big-endian length (`readUInt32BE`
throws when fewer than 4 bytes remain), then return
`content.subarray(4, 4 + xmlLen).toString('utf-8')` — `subarray` clamps,
so an oversized length is never detected. -/
def decryptBody (deciphered : List Nat) : Except String (List Nat) :=
  match decodePkcs7 deciphered with
  | .error e => .error e
  | .ok unpadded =>
    match unpadded.drop 16 with
    | b0 :: b1 :: b2 :: b3 :: restMsg =>
      .ok (nodeUtf8Decode (restMsg.take (readUInt32BE4 b0 b1 b2 b3)))
    | _ => .error "readUInt32BE out of range"

/-- The part of `encrypt` before the cipher:
`[16 random bytes][4-byte BE length][UTF-8 text]`, PKCS#7-padded. -/
def encryptCore (random16 msgBytes : List Nat) : List Nat :=
  encodePkcs7 (random16 ++ writeUInt32BE msgBytes.length ++ msgBytes)

/-- `encrypt(text)` with the base64∘AES layer abstracted as `cipher`. -/
def wecomEncrypt (cipher : List Nat → List Nat) (random16 : List Nat)
    (text : List Nat) : List Nat :=
  cipher (encryptCore random16 (utf8Encode text))

/-- `decrypt(text)` with the AES∘base64-decode layer abstracted as
`decipher`; the result is the `message` field. -/
def wecomDecrypt (decipher : List Nat → List Nat) (ct : List Nat) :
    Except String (List Nat) :=
  decryptBody (decipher ct)

/-- Whether an `Except` result is a success. -/
def exceptOk : Except String (List Nat) → Bool
  | .ok _ => true
  | .error _ => false

/-! ## Lemmas: the UTF-8 codec -/

set_option maxHeartbeats 1000000 in
theorem utf8DecodeStep_length_le (b : Nat) (rest : List Nat) :
    (utf8DecodeStep b rest).2.length ≤ rest.length := by
  unfold utf8DecodeStep
  repeat' split
  all_goals simp_all
  all_goals omega

theorem nodeUtf8DecodeGo_eq (f₁ : Nat) :
    ∀ (f₂ : Nat) (l : List Nat), l.length ≤ f₁ → l.length ≤ f₂ →
      nodeUtf8DecodeGo f₁ l = nodeUtf8DecodeGo f₂ l := by
  induction f₁ with
  | zero =>
    intro f₂ l h₁ _
    have : l = [] := List.length_eq_zero.mp (Nat.le_zero.mp h₁)
    subst this
    cases f₂ <;> rfl
  | succ f ih =>
    intro f₂ l h₁ h₂
    cases l with
    | nil => cases f₂ <;> rfl
    | cons b rest =>
      cases f₂ with
      | zero => simp at h₂
      | succ g =>
        simp only [nodeUtf8DecodeGo]
        have hr : rest.length ≤ f := by simpa using h₁
        have hg : rest.length ≤ g := by simpa using h₂
        have hstep := utf8DecodeStep_length_le b rest
        rw [ih g (utf8DecodeStep b rest).2 (le_trans hstep hr)
          (le_trans hstep hg)]

theorem nodeUtf8Decode_cons (b : Nat) (rest : List Nat) :
    nodeUtf8Decode (b :: rest) =
      (utf8DecodeStep b rest).1 ::
        nodeUtf8Decode (utf8DecodeStep b rest).2 := by
  show nodeUtf8DecodeGo (rest.length + 1) (b :: rest) = _
  simp only [nodeUtf8DecodeGo]
  rw [nodeUtf8DecodeGo_eq rest.length (utf8DecodeStep b rest).2.length
    (utf8DecodeStep b rest).2 (utf8DecodeStep_length_le b rest) le_rfl]
  rfl

theorem utf8DecodeStep_ascii (b : Nat) (rest : List Nat) (h : b < 0x80) :
    utf8DecodeStep b rest = (b, rest) := by
  simp only [utf8DecodeStep, if_pos h]

theorem nodeUtf8Decode_ascii_cons (b : Nat) (rest : List Nat)
    (h : b < 0x80) :
    nodeUtf8Decode (b :: rest) = b :: nodeUtf8Decode rest := by
  rw [nodeUtf8Decode_cons, utf8DecodeStep_ascii b rest h]

theorem utf8DecodeStep_two (c : Nat) (tail : List Nat) (h₁ : 0x80 ≤ c)
    (h₂ : c < 0x800) :
    utf8DecodeStep (0xC0 + c / 64) ((0x80 + c % 64) :: tail) = (c, tail) := by
  unfold utf8DecodeStep
  repeat' split
  all_goals simp_all
  all_goals omega

theorem utf8DecodeStep_three (c : Nat) (tail : List Nat) (h₁ : 0x800 ≤ c)
    (h₂ : c < 0x10000) (h₃ : c < 0xD800 ∨ 0xE000 ≤ c) :
    utf8DecodeStep (0xE0 + c / 4096)
      ((0x80 + (c / 64) % 64) :: (0x80 + c % 64) :: tail) = (c, tail) := by
  unfold utf8DecodeStep
  repeat' split
  all_goals simp_all
  all_goals omega

theorem utf8DecodeStep_four (c : Nat) (tail : List Nat)
    (h₁ : 0x10000 ≤ c) (h₂ : c < 0x110000) :
    utf8DecodeStep (0xF0 + c / 262144)
      ((0x80 + (c / 4096) % 64) :: (0x80 + (c / 64) % 64) ::
        (0x80 + c % 64) :: tail) = (c, tail) := by
  unfold utf8DecodeStep
  repeat' split
  all_goals simp_all
  all_goals omega

theorem nodeUtf8Decode_encodeChar (c : Nat) (tail : List Nat)
    (h : isScalar c = true) :
    nodeUtf8Decode (utf8EncodeChar c ++ tail) = c :: nodeUtf8Decode tail := by
  have hs : c < 0x110000 ∧ (c < 0xD800 ∨ 0xE000 ≤ c) := by
    simpa [isScalar, Bool.and_eq_true, Bool.or_eq_true,
      decide_eq_true_eq] using h
  by_cases hc1 : c < 0x80
  · simp only [utf8EncodeChar, if_pos hc1, List.cons_append, List.nil_append]
    exact nodeUtf8Decode_ascii_cons c tail hc1
  · by_cases hc2 : c < 0x800
    · simp only [utf8EncodeChar, if_neg hc1, if_pos hc2, List.cons_append,
        List.nil_append]
      rw [nodeUtf8Decode_cons, utf8DecodeStep_two c tail (by omega) hc2]
    · by_cases hc3 : c < 0x10000
      · simp only [utf8EncodeChar, if_neg hc1, if_neg hc2, if_pos hc3,
          List.cons_append, List.nil_append]
        rw [nodeUtf8Decode_cons,
          utf8DecodeStep_three c tail (by omega) hc3 hs.2]
      · simp only [utf8EncodeChar, if_neg hc1, if_neg hc2, if_neg hc3,
          List.cons_append, List.nil_append]
        rw [nodeUtf8Decode_cons,
          utf8DecodeStep_four c tail (by omega) hs.1]

theorem nodeUtf8Decode_encode_append (s : List Nat) (tail : List Nat)
    (h : ∀ c ∈ s, isScalar c = true) :
    nodeUtf8Decode (utf8Encode s ++ tail) = s ++ nodeUtf8Decode tail := by
  induction s with
  | nil => simp [utf8Encode]
  | cons c cs ih =>
    simp only [utf8Encode, List.append_assoc, List.cons_append]
    rw [nodeUtf8Decode_encodeChar c _ (h c (List.mem_cons_self c cs)),
      ih (fun x hx => h x (List.mem_cons_of_mem c hx))]

theorem nodeUtf8Decode_encode (s : List Nat)
    (h : ∀ c ∈ s, isScalar c = true) :
    nodeUtf8Decode (utf8Encode s) = s := by
  have h0 := nodeUtf8Decode_encode_append s [] h
  have h1 : nodeUtf8Decode [] = [] := rfl
  rw [List.append_nil, h1, List.append_nil] at h0
  exact h0

theorem utf8Encode_append (a b : List Nat) :
    utf8Encode (a ++ b) = utf8Encode a ++ utf8Encode b := by
  induction a with
  | nil => simp [utf8Encode]
  | cons c cs ih => simp [utf8Encode, ih]

theorem utf8Encode_replicate_ascii (n c : Nat) (h : c < 0x80) :
    utf8Encode (List.replicate n c) = List.replicate n c := by
  induction n with
  | zero => rfl
  | succ k ih =>
    simp only [List.replicate_succ, utf8Encode, ih, utf8EncodeChar,
      if_pos h, List.cons_append, List.nil_append]

theorem nodeUtf8Decode_replicate_ascii (n c : Nat) (tail : List Nat)
    (h : c < 0x80) :
    nodeUtf8Decode (List.replicate n c ++ tail) =
      List.replicate n c ++ nodeUtf8Decode tail := by
  induction n with
  | zero => simp
  | succ k ih =>
    simp only [List.replicate_succ, List.cons_append]
    rw [nodeUtf8Decode_ascii_cons _ _ h, ih]

/-! ## Lemmas: the stream registry -/

theorem regGet_regSet_self (reg : Registry) (id : String) (s : StreamRec) :
    regGet (regSet reg id s) id = some s := by
  induction reg with
  | nil => simp [regSet, regGet]
  | cons kv rest ih =>
    obtain ⟨k, v⟩ := kv
    by_cases h : k = id
    · simp [regSet, regGet, h]
    · simp [regSet, regGet, h, ih]

theorem processImagesGo_fst (prep : String → Option MsgItem)
    (imgs : List PendingImage) :
    ∀ k : Nat,
      (processImagesGo prep imgs k).1 =
        (imgs.filterMap (fun img => prep img.path)).take (10 - k) := by
  induction imgs with
  | nil => intro k; simp [processImagesGo]
  | cons img rest ih =>
    intro k
    by_cases hk : k ≥ 10
    · have h10 : 10 - k = 0 := by omega
      simp [processImagesGo, if_pos hk, h10]
    · simp only [processImagesGo, if_neg hk]
      cases hp : prep img.path with
      | some item =>
        have hs : 10 - k = (10 - (k + 1)) + 1 := by omega
        simp [List.filterMap_cons, hp, ih (k + 1), hs]
      | none =>
        simp [List.filterMap_cons, hp, ih k]

/-! ## Claims about truncation and the finished flag -/

/-- Registry with a single fresh stream `"s"`. -/
def c1Reg : Registry := createStream [] "s" none 0

/-- 20478 ASCII `a`s followed by two `中` (U+4E2D, 3 bytes each in UTF-8):
20484 UTF-8 bytes in total, so `updateStream` truncates. -/
def c1Input : List Nat := List.replicate 20478 97 ++ [0x4E2D, 0x4E2D]

/-- What the byte-slice truncation actually stores for `c1Input`: the cut
at byte 20480 falls after the first byte pair `E4 B8` of the second `中`,
which Node decodes to U+FFFD. -/
def c1Stored : List Nat := List.replicate 20478 97 ++ [0xFFFD]

theorem utf8Encode_c1Input :
    utf8Encode c1Input =
      List.replicate 20478 97 ++ [0xE4, 0xB8, 0xAD, 0xE4, 0xB8, 0xAD] := by
  show utf8Encode (List.replicate 20478 97 ++ [0x4E2D, 0x4E2D]) = _
  rw [utf8Encode_append, utf8Encode_replicate_ascii 20478 97 (by omega)]
  rfl

theorem drop_replicate_left (n a : Nat) (l : List Nat) :
    (List.replicate n a ++ l).drop n = l := by
  have h := List.drop_left (List.replicate n a) l
  rwa [List.length_replicate] at h

theorem utf8ByteLength_c1Input : utf8ByteLength c1Input = 20484 := by
  rw [utf8ByteLength, utf8Encode_c1Input, List.length_append,
    List.length_replicate]
  rfl

theorem utf8ByteLength_c1Stored : utf8ByteLength c1Stored = 20481 := by
  rw [utf8ByteLength, c1Stored, utf8Encode_append,
    utf8Encode_replicate_ascii 20478 97 (by omega)]
  rw [List.length_append, List.length_replicate]
  rfl

theorem c1_truncation_eq :
    nodeUtf8Decode ((utf8Encode c1Input).take 20480) = c1Stored := by
  rw [utf8Encode_c1Input]
  have hlen : (20480 : Nat) = (List.replicate 20478 97).length + 2 := by
    rw [List.length_replicate]
  rw [hlen, List.take_append 2]
  rw [nodeUtf8Decode_replicate_ascii 20478 97 _ (by omega)]
  rfl

theorem c1Stored_not_prefix : ¬ c1Stored <+: c1Input := by
  rintro ⟨t, ht⟩
  have hd := congrArg (List.drop 20478) ht
  rw [c1Stored, c1Input, List.append_assoc, drop_replicate_left,
    drop_replicate_left] at hd
  simp at hd

/-- `updateStream` on a registered stream: the stored content is the
input, byte-slice-truncated when its UTF-8 form exceeds 20480 bytes. -/
theorem updateStream_content (reg : Registry) (id : String)
    (content : List Nat) (fin : Bool) (msg : List MsgItem) (now : Nat)
    (s : StreamRec) (h : regGet reg id = some s) :
    (regGet (updateStream reg id content fin msg now).2 id).map
        StreamRec.content =
      some (if utf8ByteLength content > 20480 then
        nodeUtf8Decode ((utf8Encode content).take 20480) else content) := by
  simp only [updateStream, h]
  rw [regGet_regSet_self]
  by_cases hf : (fin && !msg.isEmpty) = true
  · rw [if_pos hf]; rfl
  · rw [if_neg hf]; rfl

/-- Claim C1: after `update(id, content, finished)` on an over-long
content — here `c1Input`, whose UTF-8 form is 20484 bytes — the stored
content is claimed to be at most 20480 UTF-8 bytes and a prefix of the
input cut at a code-point boundary.  The byte-slice truncation
`Buffer.from(content,'utf8').slice(0,20480).toString('utf8')` instead
cuts the second `中` after 2 of its 3 bytes; Node decodes the dangling
pair to U+FFFD, so the stored content is 20481 UTF-8 bytes (over the
limit the surrounding code enforces and logs) and is not a prefix of the
input: the claim fails on the code. -/
theorem claim_C1 :
    utf8ByteLength c1Input = 20484 ∧
    (regGet (updateStream c1Reg "s" c1Input false [] 1).2 "s").map
        StreamRec.content = some c1Stored ∧
    utf8ByteLength c1Stored = 20481 ∧
    ¬ c1Stored <+: c1Input := by
  refine ⟨utf8ByteLength_c1Input, ?_, utf8ByteLength_c1Stored,
    c1Stored_not_prefix⟩
  have hcond : utf8ByteLength c1Input > 20480 := by
    rw [utf8ByteLength_c1Input]; omega
  have hget : regGet c1Reg "s" =
      some { content := [], finished := false, updatedAt := 0,
             feedbackId := none, msgItem := [], pendingImages := [] } := rfl
  rw [updateStream_content _ _ _ _ _ _ _ hget, if_pos hcond,
    c1_truncation_eq]

/-- `updateStream` stores exactly the `finished` argument. -/
theorem updateStream_finished (reg : Registry) (id : String)
    (content : List Nat) (fin : Bool) (msg : List MsgItem) (now : Nat)
    (s : StreamRec) (h : regGet reg id = some s) :
    (regGet (updateStream reg id content fin msg now).2 id).map
      StreamRec.finished = some fin := by
  simp only [updateStream, h]
  rw [regGet_regSet_self]
  by_cases hf : (fin && !msg.isEmpty) = true
  · rw [if_pos hf]; rfl
  · rw [if_neg hf]; rfl

/-- `appendStream` leaves the `finished` flag unchanged. -/
theorem appendStream_finished (reg : Registry) (id : String)
    (chunk : List Nat) (now : Nat) (s : StreamRec)
    (h : regGet reg id = some s) :
    (regGet (appendStream reg id chunk now).2 id).map StreamRec.finished =
      some s.finished := by
  simp only [appendStream, h]
  rw [regGet_regSet_self]
  rfl

theorem finishStream_missing (reg : Registry) (id : String)
    (prep : String → Option MsgItem) (now : Nat)
    (h : regGet reg id = none) :
    finishStream reg id prep now = (false, reg, 0) := by
  simp only [finishStream, h]

theorem finishStream_finished (reg : Registry) (id : String)
    (prep : String → Option MsgItem) (now : Nat) (s : StreamRec)
    (h : regGet reg id = some s) (hf : s.finished = true) :
    finishStream reg id prep now = (false, reg, 0) := by
  simp only [finishStream, h, hf, if_true]

theorem finishStream_run (reg : Registry) (id : String)
    (prep : String → Option MsgItem) (now : Nat) (s : StreamRec)
    (h : regGet reg id = some s) (hf : s.finished = false) :
    finishStream reg id prep now =
      (true,
        regSet reg id
          { (if s.pendingImages.length > 0 then
                { s with msgItem := (processPendingImages s prep).1 }
              else s) with
            finished := true, updatedAt := now },
        if s.pendingImages.length > 0 then (processPendingImages s prep).2
        else 0) := by
  simp only [finishStream, h, hf, Bool.false_eq_true, if_false]

/-- Registry with a single stream `"s"` that is already finished. -/
def c2Reg : Registry :=
  regSet [] "s"
    { content := [], finished := true, updatedAt := 0, feedbackId := none,
      msgItem := [], pendingImages := [] }

/-- Claim C2 counterexample: stream `"s"` of `c2Reg` has `finished = true`,
yet `updateStream("s", "", finished := false)` stores `finished = false`
— `updateStream` assigns its `finished` argument unconditionally, so the
flag is not monotonic across registry operations. -/
theorem claim_C2_counterexample :
    (regGet c2Reg "s").map StreamRec.finished = some true ∧
    (regGet (updateStream c2Reg "s" [] false [] 1).2 "s").map
      StreamRec.finished = some false := by
  exact ⟨rfl, by decide⟩

/-- Claim C2, amended: `updateStream` stores exactly the `finished`
argument of the call (hence an update with `finished = false` after a
finish reverts the flag); `appendStream` never changes the flag; and
`finishStream` on an already-finished stream is a no-op returning
`false`, so the flag never reverts without an explicit
`update(..., finished=false)`. -/
theorem claim_C2 :
    (∀ reg id content fin msg now s, regGet reg id = some s →
      (regGet (updateStream reg id content fin msg now).2 id).map
        StreamRec.finished = some fin) ∧
    (∀ reg id chunk now s, regGet reg id = some s →
      (regGet (appendStream reg id chunk now).2 id).map
        StreamRec.finished = some s.finished) ∧
    (∀ reg id prep now s, regGet reg id = some s → s.finished = true →
      finishStream reg id prep now = (false, reg, 0)) := by
  refine ⟨?_, ?_, ?_⟩
  · intro reg id content fin msg now s h
    exact updateStream_finished reg id content fin msg now s h
  · intro reg id chunk now s h
    exact appendStream_finished reg id chunk now s h
  · intro reg id prep now s h hf
    exact finishStream_finished reg id prep now s h hf

/-- Witness for C2: the amended statement evaluated on `c2Reg`. -/
theorem claim_C2_witness :
    (regGet (updateStream c2Reg "s" [] false [] 1).2 "s").map
      StreamRec.finished = some false ∧
    (regGet (appendStream c2Reg "s" [] 2).2 "s").map
      StreamRec.finished = some true ∧
    finishStream c2Reg "s" (fun _ => none) 3 = (false, c2Reg, 0) :=
  ⟨claim_C2.1 c2Reg "s" [] false [] 1 _ rfl,
    claim_C2.2.1 c2Reg "s" [] 2 _ rfl,
    claim_C2.2.2 c2Reg "s" (fun _ => none) 3 _ rfl rfl⟩

/-- Claim C7: `finish(id)` on an already-finished stream returns `false`,
performs zero attachment preparations and leaves the registry unchanged;
consequently the second of two consecutive `finish(id)` calls — whatever
the first did — returns `false`, changes nothing and prepares no
attachment. -/
theorem claim_C7 :
    (∀ reg id prep now s, regGet reg id = some s → s.finished = true →
      finishStream reg id prep now = (false, reg, 0)) ∧
    ∀ reg id prep now1 now2,
      finishStream (finishStream reg id prep now1).2.1 id prep now2 =
        (false, (finishStream reg id prep now1).2.1, 0) := by
  constructor
  · intro reg id prep now s h hf
    exact finishStream_finished reg id prep now s h hf
  · intro reg id prep now1 now2
    cases h : regGet reg id with
    | none =>
      rw [finishStream_missing reg id prep now1 h]
      exact finishStream_missing reg id prep now2 h
    | some s =>
      by_cases hf : s.finished = true
      · rw [finishStream_finished reg id prep now1 s h hf]
        exact finishStream_finished reg id prep now2 s h hf
      · have hf' : s.finished = false := by
          revert hf; cases s.finished <;> simp
        rw [finishStream_run reg id prep now1 s h hf']
        exact finishStream_finished _ id prep now2 _
          (regGet_regSet_self reg id _) rfl

/-- Witness for C7: the guard evaluated on the finished stream of
`c2Reg`. -/
theorem claim_C7_witness :
    finishStream c2Reg "s" (fun _ => some ⟨"b", "m"⟩) 7 =
      (false, c2Reg, 0) :=
  claim_C7.1 c2Reg "s" (fun _ => some ⟨"b", "m"⟩) 7 _ rfl rfl

/-- Claim C8: `processPendingImages` finalizes the pending attachments in
enqueue order, skipping the per-item failures of the external preparer
(`prep _ = none`) without aborting, and the produced `msg_item` list is
the first 10 successes — so its length never exceeds 10, and once the
loop holds 10 items it stops without invoking the preparer again
(`processImagesGo _ _ 10` performs zero preparations). -/
theorem claim_C8 :
    ∀ (s : StreamRec) (prep : String → Option MsgItem),
      (processPendingImages s prep).1 =
        (s.pendingImages.filterMap (fun img => prep img.path)).take 10 ∧
      (processPendingImages s prep).1.length ≤ 10 ∧
      ∀ imgs, processImagesGo prep imgs 10 = ([], 0) := by
  intro s prep
  have h1 : (processPendingImages s prep).1 =
      (s.pendingImages.filterMap (fun img => prep img.path)).take 10 := by
    by_cases he : s.pendingImages.isEmpty
    · rw [List.isEmpty_iff] at he
      simp [processPendingImages, he]
    · simp only [processPendingImages, if_neg he]
      exact processImagesGo_fst prep s.pendingImages 0
  refine ⟨h1, ?_, ?_⟩
  · rw [h1]; exact List.length_take_le 10 _
  · intro imgs
    cases imgs with
    | nil => rfl
    | cons img rest => rfl

/-- Registry with one unfinished stream `"s"` holding one pending
attachment. -/
def c9Reg : Registry :=
  regSet [] "s"
    { content := [], finished := false, updatedAt := 0, feedbackId := none,
      msgItem := [], pendingImages := [⟨"p", 0⟩] }

/-- Claim C9 counterexample: `finish` on the stream of `c9Reg` succeeds
(returns `true`) and converts the pending attachment into `msgItem`, but
the `pendingImages` list afterwards still holds its entry — the source
never clears it, so it is not empty as the claim requires. -/
theorem claim_C9_counterexample :
    (finishStream c9Reg "s" (fun _ => some ⟨"b", "m"⟩) 5).1 = true ∧
    (regGet (finishStream c9Reg "s" (fun _ => some ⟨"b", "m"⟩) 5).2.1
      "s").map StreamRec.pendingImages = some [⟨"p", 0⟩] ∧
    ([(⟨"p", 0⟩ : PendingImage)]) ≠ [] := by
  refine ⟨rfl, rfl, by decide⟩

/-- Claim C9, amended: a successful `finish(id)` consumes the
pending-attachments list into the stored `attachmentItems` but does not
clear it: after `finish` returns `true` the stream's `pendingImages` is
exactly what it was before the call (re-finalization is prevented only
by the `finished` guard). -/
theorem claim_C9 :
    ∀ reg id prep now s, regGet reg id = some s → s.finished = false →
      (finishStream reg id prep now).1 = true ∧
      (regGet (finishStream reg id prep now).2.1 id).map
        StreamRec.pendingImages = some s.pendingImages := by
  intro reg id prep now s h hf
  rw [finishStream_run reg id prep now s h hf]
  refine ⟨rfl, ?_⟩
  rw [regGet_regSet_self]
  by_cases hp : s.pendingImages.length > 0
  · rw [if_pos hp]; rfl
  · rw [if_neg hp]; rfl

/-- Witness for C9: the amended statement evaluated on `c9Reg`. -/
theorem claim_C9_witness :
    (finishStream c9Reg "s" (fun _ => none) 9).1 = true ∧
    (regGet (finishStream c9Reg "s" (fun _ => none) 9).2.1 "s").map
      StreamRec.pendingImages = some [⟨"p", 0⟩] :=
  claim_C9 c9Reg "s" (fun _ => none) 9 _ rfl rfl

/-! ## Lemmas: the conversation queue -/

theorem enqueueOp_idle (s : QueueState) (m : Nat)
    (hp : s.processing = false) :
    enqueueOp s m =
      ({ queued := false, position := none, queueFull := false },
        { s with processing := true, currentStreamId := some m },
        some m) := by
  simp [enqueueOp, hp]

theorem enqueueOp_push (s : QueueState) (m : Nat)
    (hp : s.processing = true) (hlen : s.queue.length < 5) :
    enqueueOp s m =
      ({ queued := true, position := some (s.queue.length + 1),
         queueFull := false },
        { s with queue := s.queue ++ [m] }, none) := by
  have h5 : ¬ s.queue.length ≥ 5 := by omega
  simp [enqueueOp, hp, h5]

theorem enqueueOp_full (s : QueueState) (m : Nat)
    (hp : s.processing = true) (hlen : 5 ≤ s.queue.length) :
    enqueueOp s m =
      ({ queued := false, position := none, queueFull := true },
        s, none) := by
  simp [enqueueOp, hp, hlen]

theorem qinv_qstep (t : QTrace) (e : QEvent) (h : QInv t) :
    QInv (qstep t e) := by
  obtain ⟨hlen, hidle, hfifo⟩ := h
  cases e with
  | enq m =>
    cases hp : t.state.processing with
    | false =>
      have hq : t.state.queue = [] := hidle hp
      have hsl : t.started = t.accepted := by
        rw [hq, List.append_nil] at hfifo; exact hfifo
      simp only [qstep, enqueueOp_idle t.state m hp]
      refine ⟨by simp [hq], by simp, by simp [hq, hsl]⟩
    | true =>
      by_cases hfull : t.state.queue.length ≥ 5
      · simp only [qstep, enqueueOp_full t.state m hp hfull]
        exact ⟨hlen, hidle, by simp [hfifo]⟩
      · simp only [qstep, enqueueOp_push t.state m hp (by omega)]
        refine ⟨by simp; omega, by simp [hp], ?_⟩
        simp [← List.append_assoc, hfifo]
  | complete =>
    cases hq : t.state.queue with
    | nil =>
      have hsl : t.started = t.accepted := by
        rw [hq, List.append_nil] at hfifo; exact hfifo
      simp only [qstep, processNextOp, hq]
      exact ⟨by simp, fun _ => rfl, by simp [hsl]⟩
    | cons next rest =>
      have hp : t.state.processing = true := by
        cases hcase : t.state.processing with
        | false => rw [hidle hcase] at hq; cases hq
        | true => rfl
      simp only [qstep, processNextOp, hq]
      refine ⟨?_, by simp [hp], ?_⟩
      · have : t.state.queue.length = rest.length + 1 := by rw [hq]; rfl
        simp only [List.length_cons] at hlen ⊢
        simp; omega
      · rw [← hfifo, hq]
        simp

theorem qinv_qrun_from (events : List QEvent) :
    ∀ t : QTrace, QInv t → QInv (events.foldl qstep t) := by
  induction events with
  | nil => intro t h; exact h
  | cons e rest ih =>
    intro t h
    exact ih (qstep t e) (qinv_qstep t e h)

/-- Claim C3: `enqueue` starts the job immediately and returns
`{queued:false}` when the key is idle; appends and returns
`{queued:true, position}` (1-based) when busy with backlog under 5;
returns `{queued:false, queueFull:true}` without storing the payload when
the backlog holds 5 or more — and along every event sequence the backlog
never exceeds 5 entries, an idle key has no backlog, and jobs start in
exactly FIFO arrival order (`started ++ backlog = accepted`). -/
theorem claim_C3 :
    (∀ s m, s.processing = false →
      enqueueOp s m =
        ({ queued := false, position := none, queueFull := false },
          { s with processing := true, currentStreamId := some m },
          some m)) ∧
    (∀ s m, s.processing = true → s.queue.length < 5 →
      enqueueOp s m =
        ({ queued := true, position := some (s.queue.length + 1),
           queueFull := false },
          { s with queue := s.queue ++ [m] }, none)) ∧
    (∀ s m, s.processing = true → 5 ≤ s.queue.length →
      enqueueOp s m =
        ({ queued := false, position := none, queueFull := true },
          s, none)) ∧
    ∀ events, QInv (qrun events) := by
  refine ⟨?_, ?_, ?_, ?_⟩
  · intro s m hp
    exact enqueueOp_idle s m hp
  · intro s m hp hlen
    exact enqueueOp_push s m hp hlen
  · intro s m hp hlen
    exact enqueueOp_full s m hp hlen
  · intro events
    exact qinv_qrun_from events _ ⟨by simp [initQueueState], fun _ => rfl, rfl⟩

/-- Witness for C3: the three `enqueue` outcomes at concrete states, and
the invariant along the spec's 7-enqueue scenario. -/
theorem claim_C3_witness :
    enqueueOp initQueueState 1 =
      ({ queued := false, position := none, queueFull := false },
        { processing := true, currentStreamId := some 1, queue := [] },
        some 1) ∧
    enqueueOp { processing := true, currentStreamId := some 1,
                queue := [2, 3, 4, 5] } 6 =
      ({ queued := true, position := some 5, queueFull := false },
        { processing := true, currentStreamId := some 1,
          queue := [2, 3, 4, 5, 6] }, none) ∧
    enqueueOp { processing := true, currentStreamId := some 1,
                queue := [2, 3, 4, 5, 6] } 7 =
      ({ queued := false, position := none, queueFull := true },
        { processing := true, currentStreamId := some 1,
          queue := [2, 3, 4, 5, 6] }, none) ∧
    QInv (qrun [.enq 1, .enq 2, .enq 3, .enq 4, .enq 5, .enq 6, .enq 7,
      .complete, .complete]) :=
  ⟨claim_C3.1 initQueueState 1 rfl,
    claim_C3.2.1 _ 6 rfl (by decide),
    claim_C3.2.2.1 _ 7 rfl (by decide),
    claim_C3.2.2.2 _⟩

/-! ## Lemmas: the heartbeat -/

theorem isPrefixB_self_append (a t : List Nat) :
    isPrefixB a (a ++ t) = true := by
  induction a with
  | nil => rfl
  | cons x xs ih => simp [isPrefixB, ih]

theorem containsB_of_eq_append (hay needle t : List Nat)
    (h : hay = needle ++ t) :
    containsB hay needle = true := by
  cases hay with
  | nil =>
    cases needle with
    | nil => rfl
    | cons n ns => simp at h
  | cons x xs =>
    simp only [containsB, h, isPrefixB_self_append, Bool.true_or]

theorem containsB_cons_of (x : Nat) (t needle : List Nat)
    (h : containsB t needle = true) :
    containsB (x :: t) needle = true := by
  simp [containsB, h]

theorem containsB_append_left (pre hay needle : List Nat)
    (h : containsB hay needle = true) :
    containsB (pre ++ hay) needle = true := by
  induction pre with
  | nil => exact h
  | cons x xs ih => exact containsB_cons_of x _ needle ih

theorem isEmpty_append_left_false (l r : List Nat)
    (h : l.isEmpty = false) : (l ++ r).isEmpty = false := by
  cases l with
  | nil => cases h
  | cons x xs => rfl

theorem isHeartbeatContent_of_parts (content : List Nat)
    (hne : content.isEmpty = false)
    (hglass : containsB content (strCps "⏳") = true)
    (hmsg : (containsB content (strCps "正在思考") ||
        containsB content (strCps "正在分析") ||
        containsB content (strCps "正在处理") ||
        containsB content (strCps "正在生成回复")) = true) :
    isHeartbeatContent content = true := by
  simp only [isHeartbeatContent, hne, Bool.false_eq_true, if_false,
    hglass, Bool.true_and]
  simp only [Bool.or_assoc] at hmsg ⊢
  exact hmsg

/-- Every placeholder a tick can build satisfies the heartbeat's own
placeholder detector. -/
theorem isHeartbeatContent_mk (elapsed dots : Nat) :
    isHeartbeatContent (mkHeartbeatContent elapsed dots) = true := by
  have hm : (elapsed / 10000) % thinkingMessages.length = 0 ∨
      (elapsed / 10000) % thinkingMessages.length = 1 ∨
      (elapsed / 10000) % thinkingMessages.length = 2 ∨
      (elapsed / 10000) % thinkingMessages.length = 3 := by
    have : (elapsed / 10000) % thinkingMessages.length < 4 :=
      Nat.mod_lt _ (by decide)
    omega
  have hglass : ∀ msg mid : List Nat,
      containsB (msg ++ mid ++ strCps " ⏳") (strCps "⏳") = true := by
    intro msg mid
    rw [List.append_assoc]
    exact containsB_append_left msg _ _
      (containsB_append_left mid _ _ (by decide))
  rcases hm with h | h | h | h
  · rw [mkHeartbeatContent, h]
    have hC : containsB (thinkingMessages.getD 0 [] ++
        List.replicate (dots + 1) 46 ++ strCps " ⏳")
        (strCps "正在思考") = true :=
      containsB_of_eq_append _ _
        (List.replicate (dots + 1) 46 ++ strCps " ⏳")
        (List.append_assoc _ _ _)
    exact isHeartbeatContent_of_parts _
      (isEmpty_append_left_false _ _
        (isEmpty_append_left_false _ _ (by decide)))
      (hglass _ _) (by rw [hC]; simp)
  · rw [mkHeartbeatContent, h]
    have hC : containsB (thinkingMessages.getD 1 [] ++
        List.replicate (dots + 1) 46 ++ strCps " ⏳")
        (strCps "正在分析") = true :=
      containsB_of_eq_append _ _
        (List.replicate (dots + 1) 46 ++ strCps " ⏳")
        (List.append_assoc _ _ _)
    exact isHeartbeatContent_of_parts _
      (isEmpty_append_left_false _ _
        (isEmpty_append_left_false _ _ (by decide)))
      (hglass _ _) (by rw [hC]; simp)
  · rw [mkHeartbeatContent, h]
    have hC : containsB (thinkingMessages.getD 2 [] ++
        List.replicate (dots + 1) 46 ++ strCps " ⏳")
        (strCps "正在处理") = true :=
      containsB_of_eq_append _ _
        (List.replicate (dots + 1) 46 ++ strCps " ⏳")
        (List.append_assoc _ _ _)
    exact isHeartbeatContent_of_parts _
      (isEmpty_append_left_false _ _
        (isEmpty_append_left_false _ _ (by decide)))
      (hglass _ _) (by rw [hC]; simp)
  · rw [mkHeartbeatContent, h]
    have hC : containsB (thinkingMessages.getD 3 [] ++
        List.replicate (dots + 1) 46 ++ strCps " ⏳")
        (strCps "正在生成回复") = true :=
      containsB_of_eq_append _ _
        (List.replicate (dots + 1) 46 ++ strCps " ⏳")
        (List.append_assoc _ _ _)
    exact isHeartbeatContent_of_parts _
      (isEmpty_append_left_false _ _
        (isEmpty_append_left_false _ _ (by decide)))
      (hglass _ _) (by rw [hC]; simp)

theorem tick_timeout (now : Nat) (st : HBState)
    (s? : Option StreamRec) (h : 60000 ≤ now - st.startTime) :
    tick now st s? = (.timedOut, none) := by
  simp [tick, h]

theorem tick_finished (now : Nat) (st : HBState) (stream : StreamRec)
    (h1 : ¬ 60000 ≤ now - st.startTime) (h2 : stream.finished = true) :
    tick now st (some stream) = (.stoppedFinished, none) := by
  simp [tick, h1, h2]

theorem tick_real (now : Nat) (st : HBState) (stream : StreamRec)
    (h1 : ¬ 60000 ≤ now - st.startTime) (h2 : stream.finished = false)
    (h3 : stream.content ≠ [])
    (h4 : isHeartbeatContent stream.content = false) :
    tick now st (some stream) =
      (.observedReal, some { st with hasContent := true }) := by
  have he : stream.content.isEmpty = false := by
    cases hc : stream.content with
    | nil => exact absurd hc h3
    | cons a l => rfl
  simp [tick, h1, h2, he, h4]

theorem tick_write (now : Nat) (st : HBState) (stream : StreamRec)
    (h1 : ¬ 60000 ≤ now - st.startTime) (h2 : stream.finished = false)
    (hc : stream.content = [] ∨ isHeartbeatContent stream.content = true)
    (h5 : st.hasContent = false) :
    tick now st (some stream) =
      (.wrote (mkHeartbeatContent (now - st.startTime) ((st.dots + 1) % 4)),
        some { st with dots := (st.dots + 1) % 4 }) := by
  rcases hc with hc | hc
  · simp [tick, h1, h2, hc, h5]
  · have he : (!stream.content.isEmpty && !isHeartbeatContent stream.content)
        = false := by simp [hc]
    simp [tick, h1, h2, he, h5]

/-- A latched heartbeat state never writes again, and stays latched. -/
theorem tick_latched (now : Nat) (st : HBState) (s? : Option StreamRec)
    (h : st.hasContent = true) :
    (∀ c, (tick now st s?).1 ≠ TickAction.wrote c) ∧
    (∀ st', (tick now st s?).2 = some st' → st'.hasContent = true) := by
  by_cases ht : 60000 ≤ now - st.startTime
  · rw [tick_timeout now st s? ht]
    exact ⟨fun c => by simp, fun st' h' => by simp at h'⟩
  · cases s? with
    | none =>
      constructor
      · intro c; simp [tick, ht]
      · intro st' h'; simp [tick, ht] at h'
    | some stream =>
      by_cases hf : stream.finished = true
      · rw [tick_finished now st stream ht hf]
        exact ⟨fun c => by simp, fun st' h' => by simp at h'⟩
      · have hf' : stream.finished = false := by
          revert hf; cases stream.finished <;> simp
        by_cases hr : (!stream.content.isEmpty &&
            !isHeartbeatContent stream.content) = true
        · constructor
          · intro c; simp [tick, ht, hf', hr]
          · intro st' h'
            simp only [tick, if_neg ht, hf', Bool.false_eq_true, if_false,
              hr, if_true] at h'
            rw [← Option.some_inj.mp h']
        · constructor
          · intro c
            simp [tick, ht, hf', hr, h]
          · intro st' h'
            simp only [tick, if_neg ht, hf', Bool.false_eq_true, if_false,
              hr, if_false, h, if_true] at h'
            rw [← Option.some_inj.mp h']
            exact h

theorem runTicks_none (obs : List (Nat × Option StreamRec)) :
    runTicks obs none = [] := by
  cases obs <;> rfl

theorem runTicks_latched (obs : List (Nat × Option StreamRec)) :
    ∀ st : HBState, st.hasContent = true →
      ∀ (j : Nat) (c : List Nat),
        (runTicks obs (some st))[j]? ≠ some (TickAction.wrote c) := by
  induction obs with
  | nil => intro st _ j c; simp [runTicks]
  | cons ob rest ih =>
    intro st h j c
    obtain ⟨now, s?⟩ := ob
    simp only [runTicks]
    cases j with
    | zero =>
      simp only [List.getElem?_cons_zero]
      intro hcontra
      exact (tick_latched now st s? h).1 c (by rw [← Option.some_inj.mp hcontra])
    | succ j' =>
      simp only [List.getElem?_cons_succ]
      cases h2 : (tick now st s?).2 with
      | none => simp [runTicks_none]
      | some st' =>
        exact ih st' ((tick_latched now st s? h).2 st' h2) j' c

/-- Claim C6: once a tick of a heartbeat run observes content that is
non-empty and does not match the placeholder pattern, no later tick of
that run writes placeholder content — the observing tick either stops the
run (timeout, missing stream, finished stream) or latches `hasContent`,
and a latched run never writes again, whatever the registry shows
later. -/
theorem claim_C6 :
    ∀ (obs : List (Nat × Option StreamRec)) (st : HBState) (i now : Nat)
      (stream : StreamRec),
      obs[i]? = some (now, some stream) →
      stream.content ≠ [] →
      isHeartbeatContent stream.content = false →
      ∀ j, i < j → ∀ c,
        (runTicks obs (some st))[j]? ≠ some (TickAction.wrote c) := by
  intro obs
  induction obs with
  | nil => intro st i now stream h; simp at h
  | cons ob rest ih =>
    intro st i now stream hobs hne hnh j hij c
    obtain ⟨now0, s0?⟩ := ob
    cases i with
    | zero =>
      simp only [List.getElem?_cons_zero, Option.some_inj,
        Prod.mk.injEq] at hobs
      obtain ⟨-, rfl⟩ := hobs
      obtain ⟨j', rfl⟩ : ∃ j'' : Nat, j = j'' + 1 := ⟨j - 1, by omega⟩
      simp only [runTicks, List.getElem?_cons_succ]
      by_cases ht : 60000 ≤ now0 - st.startTime
      · rw [tick_timeout now0 st (some stream) ht]
        simp [runTicks_none]
      · by_cases hf : stream.finished = true
        · rw [tick_finished now0 st stream ht hf]
          simp [runTicks_none]
        · have hf' : stream.finished = false := by
            revert hf; cases stream.finished <;> simp
          rw [tick_real now0 st stream ht hf' hne hnh]
          exact runTicks_latched rest _ rfl j' c
    | succ i' =>
      simp only [List.getElem?_cons_succ] at hobs
      obtain ⟨j', rfl⟩ : ∃ j'' : Nat, j = j'' + 1 := ⟨j - 1, by omega⟩
      simp only [runTicks, List.getElem?_cons_succ]
      cases h2 : (tick now0 st s0?).2 with
      | none => simp [runTicks_none]
      | some st' =>
        exact ih st' i' now stream hobs hne hnh j' (by omega) c

/-- A stream holding real (non-placeholder) content, for the C6
witness. -/
def hiStream : StreamRec :=
  { content := strCps "hi", finished := false, updatedAt := 0,
    feedbackId := none, msgItem := [], pendingImages := [] }

/-- A stream with empty content, for the C6 witness. -/
def emptyStream : StreamRec :=
  { content := [], finished := false, updatedAt := 0,
    feedbackId := none, msgItem := [], pendingImages := [] }

/-- A stream whose content is the heartbeat's own first placeholder, for
the C10 witness. -/
def hbOwnStream : StreamRec :=
  { content := mkHeartbeatContent 0 0, finished := false, updatedAt := 0,
    feedbackId := none, msgItem := [], pendingImages := [] }

/-- A fresh heartbeat state started at time 0. -/
def hbSt0 : HBState := { startTime := 0, dots := 0, hasContent := false }

/-- Witness for C6: a two-tick run in which the first tick observes real
content; the second tick does not write. -/
theorem claim_C6_witness :
    (runTicks [(3000, some hiStream), (6000, some emptyStream)]
        (some hbSt0))[1]? ≠
      some (TickAction.wrote (mkHeartbeatContent 6000 1)) :=
  claim_C6 _ hbSt0 0 3000 hiStream rfl (by decide) (by decide) 1
    (by decide) _

/-- Claim C10: every placeholder a heartbeat tick writes (rotating
thinking phrase, 1–4 dots, hourglass marker) satisfies the heartbeat's
own placeholder detector `_isHeartbeatContent`; consequently a tick that
sees its own placeholder in the stream never latches `hasContent` and —
while unlatched, not timed out and the stream unfinished — keeps writing
the next rotating placeholder. -/
theorem claim_C10 :
    (∀ elapsed dots,
      isHeartbeatContent (mkHeartbeatContent elapsed dots) = true) ∧
    ∀ (now : Nat) (st : HBState) (stream : StreamRec) (e d : Nat),
      ¬ 60000 ≤ now - st.startTime → stream.finished = false →
      st.hasContent = false →
      stream.content = mkHeartbeatContent e d →
      tick now st (some stream) =
        (.wrote (mkHeartbeatContent (now - st.startTime)
          ((st.dots + 1) % 4)),
          some { st with dots := (st.dots + 1) % 4 }) := by
  constructor
  · exact isHeartbeatContent_mk
  · intro now st stream e d h1 h2 h3 h4
    refine tick_write now st stream h1 h2 (Or.inr ?_) h3
    rw [h4]
    exact isHeartbeatContent_mk e d

/-- Witness for C10: the detector accepts the placeholder written at
elapsed 0 with one dot, and the tick on a stream holding it writes the
next placeholder. -/
theorem claim_C10_witness :
    isHeartbeatContent (mkHeartbeatContent 0 0) = true ∧
    tick 3000 hbSt0 (some hbOwnStream) =
      (.wrote (mkHeartbeatContent 3000 1),
        some { startTime := 0, dots := 1, hasContent := false }) :=
  ⟨claim_C10.1 0 0,
    claim_C10.2 3000 hbSt0 hbOwnStream 0 0 (by decide) rfl rfl rfl⟩

/-! ## Lemmas: the crypto codec -/

theorem getLast?_replicate_succ (n a : Nat) :
    (List.replicate (n + 1) a).getLast? = some a := by
  induction n with
  | zero => rfl
  | succ k ih =>
    have h : List.replicate (k + 2) a = [a] ++ List.replicate (k + 1) a := by
      simp [List.replicate_succ]
    rw [h, List.getLast?_append_of_ne_nil [a] (by simp), ih]

theorem getLast?_append_replicate (xs : List Nat) (n a : Nat) :
    (xs ++ List.replicate (n + 1) a).getLast? = some a := by
  rw [List.getLast?_append_of_ne_nil xs (by simp), getLast?_replicate_succ]

theorem decodePkcs7_encodePkcs7 (raw : List Nat) :
    decodePkcs7 (encodePkcs7 raw) = .ok raw := by
  have hmod : raw.length % 32 < 32 := Nat.mod_lt _ (by omega)
  have hp1 : 1 ≤ 32 - raw.length % 32 := by omega
  have hp2 : 32 - raw.length % 32 ≤ 32 := by omega
  obtain ⟨q, hq⟩ : ∃ q, 32 - raw.length % 32 = q + 1 :=
    ⟨32 - raw.length % 32 - 1, by omega⟩
  have hlast : (encodePkcs7 raw).getLast? = some (32 - raw.length % 32) := by
    rw [encodePkcs7, hq]
    exact getLast?_append_replicate raw q (q + 1)
  have hlen : (encodePkcs7 raw).length =
      raw.length + (32 - raw.length % 32) := by
    simp [encodePkcs7]
  simp only [decodePkcs7, hlast]
  rw [if_neg (by omega : ¬ (32 - raw.length % 32 < 1 ∨
    32 - raw.length % 32 > 32))]
  rw [if_neg (by rw [hlen]; omega)]
  have hsub : (encodePkcs7 raw).length - (32 - raw.length % 32) =
      raw.length := by rw [hlen]; omega
  have hdrop : (encodePkcs7 raw).drop
      ((encodePkcs7 raw).length - (32 - raw.length % 32)) =
      List.replicate (32 - raw.length % 32) (32 - raw.length % 32) := by
    rw [hsub, encodePkcs7, List.drop_left]
  have hall : ((encodePkcs7 raw).drop
      ((encodePkcs7 raw).length - (32 - raw.length % 32))).all
      (fun x => x == (32 - raw.length % 32)) = true := by
    rw [hdrop]
    simp [List.all_eq_true, List.eq_of_mem_replicate]
  rw [if_pos hall, hsub, encodePkcs7, List.take_left]

/-- Claim C4: for every plaintext — the empty string and multi-byte
strings included — `decrypt(encrypt(P))` recovers exactly `P`: the
random 16-byte prefix, the 4-byte big-endian length and the PKCS#7
padding added by `encrypt` are all removed by `decrypt`.  The AES-CBC +
base64 layer is `node:crypto`, not code of this repository; it is
abstracted as a `cipher`/`decipher` pair with an inverse hypothesis.
`writeUInt32BE` requires the byte length below `2^32` (it throws above),
and a JS string UTF-8-encodes its scalar values. -/
theorem claim_C4 :
    ∀ (cipher decipher : List Nat → List Nat),
      (∀ b, decipher (cipher b) = b) →
      ∀ (random16 text : List Nat), random16.length = 16 →
        (∀ c ∈ text, isScalar c = true) →
        (utf8Encode text).length < 4294967296 →
        wecomDecrypt decipher (wecomEncrypt cipher random16 text) =
          .ok text := by
  intro cipher decipher hinv random16 text h16 hscalar hlen
  rw [wecomDecrypt, wecomEncrypt, hinv, encryptCore]
  simp only [decryptBody, decodePkcs7_encodePkcs7]
  have hdrop : ((random16 ++ writeUInt32BE (utf8Encode text).length) ++
      utf8Encode text).drop 16 =
      writeUInt32BE (utf8Encode text).length ++ utf8Encode text := by
    rw [List.append_assoc, ← h16, List.drop_left]
  rw [hdrop, writeUInt32BE]
  simp only [List.cons_append, List.nil_append]
  have hread : readUInt32BE4 ((utf8Encode text).length / 16777216 % 256)
      ((utf8Encode text).length / 65536 % 256)
      ((utf8Encode text).length / 256 % 256)
      ((utf8Encode text).length % 256) = (utf8Encode text).length := by
    rw [readUInt32BE4]; omega
  rw [hread, List.take_length, nodeUtf8Decode_encode text hscalar]

/-- Witness for C4: the round trip evaluated with the identity cipher
pair on the empty string and on a string with a multi-byte character. -/
theorem claim_C4_witness :
    wecomDecrypt (fun b => b)
        (wecomEncrypt (fun b => b) (List.replicate 16 7) []) =
      .ok [] ∧
    wecomDecrypt (fun b => b)
        (wecomEncrypt (fun b => b) (List.replicate 16 7) (strCps "中A")) =
      .ok (strCps "中A") :=
  ⟨claim_C4 (fun b => b) (fun b => b) (fun b => rfl)
      (List.replicate 16 7) [] (by decide) (by decide) (by decide),
    claim_C4 (fun b => b) (fun b => b) (fun b => rfl)
      (List.replicate 16 7) (strCps "中A") (by decide) (by decide)
      (by decide)⟩

/-- A 32-byte deciphered buffer with valid padding whose declared length
(5) exceeds the single byte remaining after the prefix and the length
field. -/
def c5Buf : List Nat :=
  List.replicate 16 0 ++ [0, 0, 0, 5, 65] ++ List.replicate 11 11

/-- Claim C5 counterexample: on `c5Buf` the declared big-endian length is
5 but only 1 payload byte remains; `decrypt` is claimed to raise, yet it
returns the clamped payload `"A"` — `subarray(4, 4 + xmlLen)` silently
clamps, so no error is ever raised for an oversized declared length. -/
theorem claim_C5_counterexample :
    readUInt32BE4 0 0 0 5 = 5 ∧
    decryptBody c5Buf = .ok [65] ∧
    exceptOk (decryptBody c5Buf) = true := by
  exact ⟨rfl, rfl, rfl⟩

/-- Claim C5, amended: `decrypt` raises when the PKCS#7 padding is
invalid — pad byte outside 1..32, pad exceeding the buffer length, or a
byte among the last `pad` differing from `pad` — but a declared payload
length exceeding the bytes remaining does NOT raise: `subarray` clamps
and the payload truncated to the bytes that remain is returned.  The
original claim's not-valid-base64 case is decided by the
`node:crypto`/`Buffer` layer (lenient base64 decoding), which is not
code of this repository and is the same external layer the round-trip
theorem abstracts as the cipher pair; it is left unasserted.  Beyond the
amended claim the theorem also proves the one further error `decrypt`
can raise after the cipher: `readUInt32BE` throws when fewer than 4
bytes remain for the length field after unpadding and the 16-byte
prefix. -/
theorem claim_C5 :
    (∀ (buff : List Nat) (pad : Nat), buff.getLast? = some pad →
      (pad < 1 ∨ pad > 32) → exceptOk (decryptBody buff) = false) ∧
    (∀ (buff : List Nat) (pad : Nat), buff.getLast? = some pad →
      1 ≤ pad → pad ≤ 32 → buff.length < pad →
      exceptOk (decryptBody buff) = false) ∧
    (∀ (buff : List Nat) (pad : Nat), buff.getLast? = some pad →
      1 ≤ pad → pad ≤ 32 → ¬ buff.length < pad →
      ((buff.drop (buff.length - pad)).all (fun x => x == pad)) = false →
      exceptOk (decryptBody buff) = false) ∧
    (∀ (buff u : List Nat), decodePkcs7 buff = .ok u →
      (u.drop 16).length < 4 → exceptOk (decryptBody buff) = false) ∧
    ∀ (buff u : List Nat) (b0 b1 b2 b3 : Nat) (rest : List Nat),
      decodePkcs7 buff = .ok u →
      u.drop 16 = b0 :: b1 :: b2 :: b3 :: rest →
      decryptBody buff =
        .ok (nodeUtf8Decode (rest.take (readUInt32BE4 b0 b1 b2 b3))) := by
  refine ⟨?_, ?_, ?_, ?_, ?_⟩
  · intro buff pad hlast hbad
    simp only [decryptBody, decodePkcs7, hlast, if_pos hbad]
    rfl
  · intro buff pad hlast h1 h2 hshort
    simp only [decryptBody, decodePkcs7, hlast,
      if_neg (by omega : ¬ (pad < 1 ∨ pad > 32)), if_pos hshort]
    rfl
  · intro buff pad hlast h1 h2 hlen hall
    simp only [decryptBody, decodePkcs7, hlast,
      if_neg (by omega : ¬ (pad < 1 ∨ pad > 32)), if_neg hlen, hall,
      Bool.false_eq_true, if_false]
    rfl
  · intro buff u hdec hshort
    rcases hd : u.drop 16 with _ | ⟨b0, _ | ⟨b1, _ | ⟨b2, _ | ⟨b3, rest⟩⟩⟩⟩
    · simp only [decryptBody, hdec, hd]; rfl
    · simp only [decryptBody, hdec, hd]; rfl
    · simp only [decryptBody, hdec, hd]; rfl
    · simp only [decryptBody, hdec, hd]; rfl
    · rw [hd] at hshort; simp only [List.length_cons] at hshort; omega
  · intro buff u b0 b1 b2 b3 rest hdec hdrop
    simp only [decryptBody, hdec, hdrop]

/-- Witness for C5: the amended statement evaluated on concrete buffers —
a bad pad byte, a pad exceeding the buffer, an unpadded buffer too short
for the length field, and the clamped success on `c5Buf`. -/
theorem claim_C5_witness :
    exceptOk (decryptBody [1, 2, 40]) = false ∧
    exceptOk (decryptBody [7, 9]) = false ∧
    exceptOk (decryptBody (List.replicate 32 16)) = false ∧
    decryptBody c5Buf =
      .ok (nodeUtf8Decode ([65].take (readUInt32BE4 0 0 0 5))) :=
  ⟨claim_C5.1 [1, 2, 40] 40 (by decide) (by decide),
    claim_C5.2.1 [7, 9] 9 (by decide) (by decide) (by decide) (by decide),
    claim_C5.2.2.2.1 (List.replicate 32 16) (List.replicate 16 16)
      (by rfl) (by decide),
    claim_C5.2.2.2.2 c5Buf (List.replicate 16 0 ++ [0, 0, 0, 5, 65])
      0 0 0 5 [65] (by rfl) (by rfl)⟩

end Wecom
